import Mathlib

/-!
Verification of the byte-sleuth detection-and-sanitization engine.

The Python sources (`src/byte_sleuth.py`, `src/character_scanner.py`) are
embedded shallowly:

* a Python `str` is modelled as a `List Nat` of Unicode codepoints
  (Python iterates a `str` codepoint by codepoint, astral characters
  included, so this is exact);
* the filesystem touched by backup/restore/scan is modelled as an
  association list from path (`String`) to decoded file content
  (`List Nat`);
* display names of characters (taken from `unicodedata` in the source)
  are omitted from the embedded findings: no property below refers to
  them, only to codepoints and positions.
-/

namespace ByteSleuth

/-- The curated `UNICODE_SUSPICIOUS_CODEPOINTS` set of `ByteSleuth`
(byte_sleuth.py lines 26-39), as the list of its elements. -/
def UNICODE_SUSPICIOUS_CODEPOINTS : List Nat :=
  [0x00AD,
   0x034F,
   0x061C,
   0x115F, 0x1160,
   0x17B4, 0x17B5,
   0x180B, 0x180C, 0x180D, 0x180E,
   0x200B, 0x200C, 0x200D, 0x200E, 0x200F,
   0x202A, 0x202B, 0x202C, 0x202D, 0x202E,
   0x2060, 0x2061, 0x2062, 0x2063, 0x2064, 0x2066, 0x2067, 0x2068,
   0x2069, 0x206A, 0x206B, 0x206C, 0x206D, 0x206E, 0x206F,
   0xFEFF,
   0xFFF9, 0xFFFA, 0xFFFB,
   0x1D173, 0x1D174, 0x1D175, 0x1D176, 0x1D177, 0x1D178, 0x1D179, 0x1D17A]

/-- The classification condition shared verbatim by
`detect_suspicious_chars` (line 73/77) and `sanitize_text` (line 92):
`(0 <= ord(char) < 32) or ord(char) == 127 or
 ord(char) in UNICODE_SUSPICIOUS_CODEPOINTS`.
`0 <= cp` is vacuous for a codepoint. -/
def isSuspicious (cp : Nat) : Bool :=
  (cp < 32) || (cp == 127) || (UNICODE_SUSPICIOUS_CODEPOINTS.contains cp)

/-- `ByteSleuth.sanitize_text` (byte_sleuth.py lines 82-95):
`''.join(char if not (...) else '' for char in text)` — each character
maps to itself or to the empty string, and the pieces are joined. -/
def sanitize_text (text : List Nat) : List Nat :=
  (text.map (fun c => if !(isSuspicious c) then [c] else [])).flatten

/-- One finding of `detect_suspicious_chars`: the tuple
`(codepoint, name, char, position)` with the display name omitted
(`char` is `chr codepoint`, so it is not duplicated either). -/
structure Finding where
  codepoint : Nat
  position : Nat
deriving DecidableEq, Repr

/-- The loop of `detect_suspicious_chars` (byte_sleuth.py lines 69-79):
`for idx, char in enumerate(text)` with `idx` starting at `k`; the first
branch appends ASCII-control findings, the `elif` branch appends
Unicode-suspicious findings. -/
def detectAux (k : Nat) : List Nat → List Finding
  | [] => []
  | c :: rest =>
    if c < 32 || c == 127 then
      ⟨c, k⟩ :: detectAux (k + 1) rest
    else if UNICODE_SUSPICIOUS_CODEPOINTS.contains c then
      ⟨c, k⟩ :: detectAux (k + 1) rest
    else
      detectAux (k + 1) rest

/-- `ByteSleuth.detect_suspicious_chars` (byte_sleuth.py lines 61-80). -/
def detect_suspicious_chars (text : List Nat) : List Finding :=
  detectAux 0 text

end ByteSleuth

namespace CharacterScanner

/-- The key set of `CharacterScanner.ASCII_CONTROL_NAMES`
(character_scanner.py lines 7-18): codepoints 0-31 and 127. -/
def ASCII_CONTROL_KEYS : List Nat := List.range 32 ++ [127]

/-- `CharacterScanner.UNICODE_SUSPICIOUS_CODEPOINTS`
(character_scanner.py lines 20-22). -/
def UNICODE_SUSPICIOUS_CODEPOINTS : List Nat :=
  [0x00AD, 0x200B, 0x200E, 0x200F, 0x2060, 0xFEFF, 0x202E]

/-- `CharacterScanner.detect_ascii_chars` (lines 33-41): the findings
are `(cp, ASCII_CONTROL_NAMES[cp], char)` triples carrying no position;
each is determined by its codepoint, so the embedding keeps the
codepoints. -/
def detect_ascii_chars (text : List Nat) : List Nat :=
  text.filter (fun c => ASCII_CONTROL_KEYS.contains c)

/-- `CharacterScanner.detect_unicode_chars` (lines 43-52), embedded the
same way as `detect_ascii_chars`. -/
def detect_unicode_chars (text : List Nat) : List Nat :=
  text.filter (fun c => UNICODE_SUSPICIOUS_CODEPOINTS.contains c)

/-- `CharacterScanner.detect_all_chars` (lines 54-58): the ASCII
findings list concatenated with the Unicode findings list. -/
def detect_all_chars (text : List Nat) : List Nat :=
  detect_ascii_chars text ++ detect_unicode_chars text

/-- The suspiciousness condition of `CharacterScanner.sanitize_text`
(line 86): membership in `ASCII_CONTROL_NAMES` or in
`UNICODE_SUSPICIOUS_CODEPOINTS`. -/
def isSuspiciousCS (cp : Nat) : Bool :=
  ASCII_CONTROL_KEYS.contains cp || UNICODE_SUSPICIOUS_CODEPOINTS.contains cp

/-- `CharacterScanner.sanitize_text` (lines 84-88):
`''.join(char for char in text if ord(char) not in ... and ord(char) not in ...)`. -/
def sanitize_text (text : List Nat) : List Nat :=
  text.filter (fun c => !(isSuspiciousCS c))

end CharacterScanner

/-- `sanitize_text` is the filter keeping exactly the non-suspicious
characters (the join of singletons and empties collapses to a filter). -/
theorem ByteSleuth.sanitize_eq_filter (text : List Nat) :
    ByteSleuth.sanitize_text text
      = text.filter (fun c => !(ByteSleuth.isSuspicious c)) := by
  induction text with
  | nil => rfl
  | cons c rest ih =>
    cases h : ByteSleuth.isSuspicious c <;>
      simp [ByteSleuth.sanitize_text, List.filter_cons, h] at ih ⊢ <;>
      exact ih

/-- Codepoint sequence of a string, for writing concrete scenarios the
way the spec writes them. -/
def strCodes (s : String) : List Nat := s.data.map Char.toNat

/-- The concrete scenario input
`"[INFO] User login\x00\x07\n[ERROR] Invalid password\x1B\n"`:
NUL (0), BEL (7), LF (10) after the first line, ESC (27), LF (10) after
the second. -/
def logScenarioInput : List Nat :=
  strCodes "[INFO] User login" ++ [0, 7, 10]
    ++ strCodes "[ERROR] Invalid password" ++ [27, 10]

/-- The output the claim expects: the two LF characters retained. -/
def logScenarioClaimed : List Nat :=
  strCodes "[INFO] User login" ++ [10]
    ++ strCodes "[ERROR] Invalid password" ++ [10]

/-- The output the code produces: every codepoint below 32 is removed,
the two LF (10) characters included. -/
def logScenarioActual : List Nat :=
  strCodes "[INFO] User login" ++ strCodes "[ERROR] Invalid password"

/-- Claim C1 counterexample: sanitizing
`"[INFO] User login\x00\x07\n[ERROR] Invalid password\x1B\n"` does not
return the claimed string with the line feeds retained, because LF (10)
satisfies `0 <= ord(char) < 32` and is removed like NUL, BEL and ESC. -/
theorem sanitize_log_scenario_strips_newlines :
    ByteSleuth.sanitize_text logScenarioInput ≠ logScenarioClaimed := by
  decide

/-- Claim C1 (amended): sanitizing the scenario input removes NUL, BEL
and ESC *and both LF characters*, yielding
`"[INFO] User login[ERROR] Invalid password"`; the `CharacterScanner`
variant agrees. -/
theorem sanitize_log_scenario :
    ByteSleuth.sanitize_text logScenarioInput = logScenarioActual ∧
    CharacterScanner.sanitize_text logScenarioInput = logScenarioActual := by
  constructor <;> decide

/-- Claim C2: `sanitize_text` returns a subsequence of the input in
which every non-suspicious character occurs exactly as often as in the
input (order preserved, nothing substituted), and which consists only of
non-suspicious characters (so exactly the suspicious ones are deleted);
this holds for both cited implementations, each under its own
classification. -/
theorem sanitize_is_exact_subsequence (text : List Nat) :
    ((ByteSleuth.sanitize_text text).Sublist text ∧
      (∀ c, ByteSleuth.isSuspicious c = false →
        List.count c (ByteSleuth.sanitize_text text) = List.count c text) ∧
      (∀ c ∈ ByteSleuth.sanitize_text text,
        ByteSleuth.isSuspicious c = false)) ∧
    ((CharacterScanner.sanitize_text text).Sublist text ∧
      (∀ c, CharacterScanner.isSuspiciousCS c = false →
        List.count c (CharacterScanner.sanitize_text text)
          = List.count c text) ∧
      (∀ c ∈ CharacterScanner.sanitize_text text,
        CharacterScanner.isSuspiciousCS c = false)) := by
  constructor
  · rw [ByteSleuth.sanitize_eq_filter]
    refine ⟨List.filter_sublist text, fun c hc => ?_, fun c hc => ?_⟩
    · exact List.count_filter (by simp [hc])
    · simpa using (List.mem_filter.mp hc).2
  · rw [CharacterScanner.sanitize_text]
    refine ⟨List.filter_sublist text, fun c hc => ?_, fun c hc => ?_⟩
    · exact List.count_filter (by simp [hc])
    · simpa using (List.mem_filter.mp hc).2

/-- Witness for C2 at the concrete input `[65, 0, 66]`. -/
theorem sanitize_is_exact_subsequence_witness :
    List.count 65 (ByteSleuth.sanitize_text [65, 0, 66])
      = List.count 65 [65, 0, 66] ∧
    List.count 65 (CharacterScanner.sanitize_text [65, 0, 66])
      = List.count 65 [65, 0, 66] :=
  ⟨(sanitize_is_exact_subsequence [65, 0, 66]).1.2.1 65 (by decide),
   (sanitize_is_exact_subsequence [65, 0, 66]).2.2.1 65 (by decide)⟩

/-- Claim C3: sanitization is idempotent on every input, and is the
identity on every input containing no suspicious character. -/
theorem sanitize_idempotent_clean_noop (t : List Nat) :
    ByteSleuth.sanitize_text (ByteSleuth.sanitize_text t)
      = ByteSleuth.sanitize_text t ∧
    ((∀ c ∈ t, ByteSleuth.isSuspicious c = false) →
      ByteSleuth.sanitize_text t = t) := by
  constructor
  · rw [ByteSleuth.sanitize_eq_filter t, ByteSleuth.sanitize_eq_filter]
    exact List.filter_eq_self.mpr (fun a ha => (List.mem_filter.mp ha).2)
  · intro h
    rw [ByteSleuth.sanitize_eq_filter]
    exact List.filter_eq_self.mpr (fun a ha => by simp [h a ha])

/-- Witness for C3: idempotence at `[65, 0, 66]` and the no-op clause at
the clean input `[65, 66]`. -/
theorem sanitize_idempotent_clean_noop_witness :
    ByteSleuth.sanitize_text (ByteSleuth.sanitize_text [65, 0, 66])
      = ByteSleuth.sanitize_text [65, 0, 66] ∧
    ByteSleuth.sanitize_text [65, 66] = [65, 66] :=
  ⟨(sanitize_idempotent_clean_noop [65, 0, 66]).1,
   (sanitize_idempotent_clean_noop [65, 66]).2 (by decide)⟩

/-- The filesystem touched by backup/restore/scan: an association list
from path to decoded text content. -/
abbrev FS : Type := List (String × List Nat)

/-- Reading a file: content of the first entry for the path, `none` when
the path has no entry (in the source, `open(path)` raising). -/
def readFile : FS → String → Option (List Nat)
  | [], _ => none
  | (q, c) :: rest, p => if q = p then some c else readFile rest p

/-- Writing a file (`open(path, "w")` followed by `write`): replace the
entry for the path, or create it. -/
def writeFile : FS → String → List Nat → FS
  | [], p, c => [(p, c)]
  | (q, d) :: rest, p, c =>
    if q = p then (p, c) :: rest else (q, d) :: writeFile rest p c

/-- `os.remove(path)`: drop the entry for the path. -/
def removeFile : FS → String → FS
  | [], _ => []
  | (q, d) :: rest, p =>
    if q = p then removeFile rest p else (q, d) :: removeFile rest p

/-- `backup_path = f"{file_path}.bak"` (byte_sleuth.py lines 239, 255). -/
def bak (p : String) : String := p ++ ".bak"

/-- `ByteSleuth.backup_file` (byte_sleuth.py lines 232-247), the
`self.backup` flag passed explicitly. When the flag is set the file is
read and its content written to `path + ".bak"` — unconditionally, also
when a backup already exists; opening a missing file raises, modelled as
`none`. When the flag is unset, only a warning is printed. -/
def backup_file (backupFlag : Bool) (fs : FS) (p : String) : Option FS :=
  if backupFlag then
    match readFile fs p with
    | some content => some (writeFile fs (bak p) content)
    | none => none
  else
    some fs

/-- `ByteSleuth.restore_file` (byte_sleuth.py lines 249-266): when the
backup exists, its content is written over the original and the backup
is deleted; otherwise only a warning is logged. Either way the function
ends with `return True` — the `Bool` component is that return value. -/
def restore_file (fs : FS) (p : String) : FS × Bool :=
  match readFile fs (bak p) with
  | some content => (removeFile (writeFile fs p content) (bak p), true)
  | none => (fs, true)

theorem readFile_writeFile_self (fs : FS) (p : String) (c : List Nat) :
    readFile (writeFile fs p c) p = some c := by
  induction fs with
  | nil => simp [writeFile, readFile]
  | cons e rest ih =>
    obtain ⟨q, d⟩ := e
    by_cases h : q = p <;> simp [writeFile, readFile, h, ih]

theorem readFile_writeFile_ne (fs : FS) (p q : String) (c : List Nat)
    (h : q ≠ p) : readFile (writeFile fs p c) q = readFile fs q := by
  induction fs with
  | nil => simp [writeFile, readFile, Ne.symm h]
  | cons e rest ih =>
    obtain ⟨a, d⟩ := e
    by_cases ha : a = p
    · subst ha
      simp [writeFile, readFile, Ne.symm h, ih]
    · by_cases haq : a = q <;> simp [writeFile, readFile, ha, haq, h, ih]

theorem readFile_removeFile_self (fs : FS) (p : String) :
    readFile (removeFile fs p) p = none := by
  induction fs with
  | nil => simp [removeFile, readFile]
  | cons e rest ih =>
    obtain ⟨q, d⟩ := e
    by_cases h : q = p <;> simp [removeFile, readFile, h, ih]

theorem readFile_removeFile_ne (fs : FS) (p q : String) (h : q ≠ p) :
    readFile (removeFile fs p) q = readFile fs q := by
  induction fs with
  | nil => simp [removeFile, readFile]
  | cons e rest ih =>
    obtain ⟨a, d⟩ := e
    by_cases ha : a = p
    · subst ha
      simp [removeFile, readFile, Ne.symm h, ih]
    · by_cases haq : a = q <;> simp [removeFile, readFile, ha, haq, h, ih]

/-- `p ++ ".bak"` is never `p` itself (it is four characters longer). -/
theorem bak_ne (p : String) : bak p ≠ p := by
  intro h
  have hlen := congrArg String.length h
  rw [bak, String.length_append] at hlen
  have hfour : (".bak" : String).length = 4 := rfl
  omega

/-- When the file is readable, `backup_file` with the flag set succeeds
and produces exactly the state with the `.bak` copy written. -/
theorem backup_file_of_read (fs : FS) (p : String) (c : List Nat)
    (h : readFile fs p = some c) :
    backup_file true fs p = some (writeFile fs (bak p) c) := by
  simp [backup_file, h]

/-- Claim C4 counterexample: with a backup of `"f"` at content `[65]`
already present and the file since mutated to `[66]`, a second
`backup_file` call overwrites the backup, which afterwards holds `[66]`
— not the content `[65]` of the first call, as the claim requires. -/
theorem backup_second_call_overwrites :
    backup_file true [("f", [65])] "f"
      = some [("f", [65]), (bak "f", [65])] ∧
    writeFile [("f", [65]), (bak "f", [65])] "f" [66]
      = [("f", [66]), (bak "f", [65])] ∧
    backup_file true [("f", [66]), (bak "f", [65])] "f"
      = some [("f", [66]), (bak "f", [66])] ∧
    readFile [("f", [66]), (bak "f", [66])] (bak "f") ≠ some [65] := by
  refine ⟨by decide, by decide, by decide, by decide⟩

/-- Claim C4 (amended): `backup_file` never preserves an existing
backup: if the file holds `c1` at the first backup call and `c2` when
`backup_file` is called again, the backup afterwards holds `c2`, the
content at the time of the second call. -/
theorem backup_file_overwrites_existing (fs : FS) (p : String)
    (c1 c2 : List Nat) (h : readFile fs p = some c1) :
    ∀ fs1, backup_file true fs p = some fs1 →
      ∃ fs2, backup_file true (writeFile fs1 p c2) p = some fs2 ∧
        readFile fs2 (bak p) = some c2 := by
  intro fs1 h1
  rw [backup_file_of_read fs p c1 h, Option.some_inj] at h1
  subst h1
  refine ⟨writeFile (writeFile (writeFile fs (bak p) c1) p c2) (bak p) c2,
    ?_, ?_⟩
  · exact backup_file_of_read _ p c2 (readFile_writeFile_self _ p c2)
  · exact readFile_writeFile_self _ (bak p) c2

/-- Witness for the amended C4 at a concrete filesystem. -/
theorem backup_file_overwrites_existing_witness :
    ∃ fs2, backup_file true
        (writeFile [("f", [65]), (bak "f", [65])] "f" [66]) "f" = some fs2 ∧
      readFile fs2 (bak "f") = some [66] :=
  backup_file_overwrites_existing [("f", [65])] "f" [65] [66] (by decide)
    [("f", [65]), (bak "f", [65])] (by decide)

/-- Claim C5: for a file at path `p` with content `C`, `backup_file`
followed by `restore_file` puts the file back at content `C` and leaves
no `.bak` file behind. -/
theorem backup_restore_round_trip (fs : FS) (p : String) (C : List Nat)
    (h : readFile fs p = some C) :
    ∀ fs1, backup_file true fs p = some fs1 →
      readFile (restore_file fs1 p).1 p = some C ∧
      readFile (restore_file fs1 p).1 (bak p) = none := by
  intro fs1 h1
  rw [backup_file_of_read fs p C h, Option.some_inj] at h1
  subst h1
  have hb : readFile (writeFile fs (bak p) C) (bak p) = some C :=
    readFile_writeFile_self fs (bak p) C
  have hres : restore_file (writeFile fs (bak p) C) p
      = (removeFile (writeFile (writeFile fs (bak p) C) p C) (bak p), true) := by
    simp [restore_file, hb]
  rw [hres]
  constructor
  · rw [readFile_removeFile_ne _ _ _ (Ne.symm (bak_ne p))]
    exact readFile_writeFile_self _ p C
  · exact readFile_removeFile_self _ (bak p)

/-- Witness for C5 at a concrete filesystem. -/
theorem backup_restore_round_trip_witness :
    readFile (restore_file [("g", [70, 71]), (bak "g", [70, 71])] "g").1 "g"
        = some [70, 71] ∧
    readFile (restore_file [("g", [70, 71]), (bak "g", [70, 71])] "g").1
        (bak "g") = none :=
  backup_restore_round_trip [("g", [70, 71])] "g" [70, 71] (by decide)
    [("g", [70, 71]), (bak "g", [70, 71])] (by decide)

/-- Claim C6 counterexample: calling `restore_file` when no backup
exists leaves the filesystem unchanged but returns `true` — exactly the
value returned by a successful restore (second conjunct), so the
not-found condition is not distinguishable by the caller from success
through the operation's result; only a warning is printed/logged. -/
theorem restore_no_backup_same_result_as_success :
    restore_file [("f", [65])] "f" = ([("f", [65])], true) ∧
    (restore_file [("f", [65]), (bak "f", [66])] "f").2 = true := by
  refine ⟨by decide, by decide⟩

/-- Claim C6 (amended): when no backup exists, `restore_file` makes no
change to the filesystem and only logs a warning; its return value is
`True`, identical to the return value of every other `restore_file`
call, so the not-found condition is not surfaced in the result. -/
theorem restore_file_no_backup_noop (fs : FS) (p : String)
    (h : readFile fs (bak p) = none) :
    restore_file fs p = (fs, true) ∧
    ∀ fs2 : FS, (restore_file fs2 p).2 = true := by
  constructor
  · simp [restore_file, h]
  · intro fs2
    cases hb : readFile fs2 (bak p) <;> simp [restore_file, hb]

/-- Witness for the amended C6 at a concrete filesystem. -/
theorem restore_file_no_backup_noop_witness :
    restore_file [("h", [72])] "h" = ([("h", [72])], true) ∧
    ∀ fs2 : FS, (restore_file fs2 "h").2 = true :=
  restore_file_no_backup_noop [("h", [72])] "h" (by decide)

/-- The `ByteSleuth.__init__` options `scan_file` branches on;
`verbose`, `debug` and `quiet` only affect printing and are omitted. -/
structure Config where
  sanitize : Bool
  backup : Bool
  sanitize_only : Bool
deriving DecidableEq, Repr

/-- `ByteSleuth.scan_file` (byte_sleuth.py lines 122-176). Reading the
file is the fallible step; every read failure (missing file, permission
denial, invalid encoding — all `readFile fs p = none` here) is caught in
the source, logged, and turned into an empty finding list with the
filesystem untouched. On the mutating paths the source calls
`self.backup_file` before rewriting the file when `self.backup` is set;
the file was just read successfully, so by `backup_file_of_read` that
call deterministically writes the `.bak` copy, inlined here as a
`writeFile` of the just-read content. -/
def scan_file (cfg : Config) (fs : FS) (p : String) :
    FS × List ByteSleuth.Finding :=
  match readFile fs p with
  | none => (fs, [])
  | some content =>
    if cfg.sanitize_only then
      let fs1 := if cfg.backup then writeFile fs (bak p) content else fs
      (writeFile fs1 p (ByteSleuth.sanitize_text content), [])
    else
      let findings := ByteSleuth.detect_suspicious_chars content
      if findings.isEmpty then
        (fs, [])
      else if cfg.sanitize then
        let fs1 := if cfg.backup then writeFile fs (bak p) content else fs
        (writeFile fs1 p (ByteSleuth.sanitize_text content), findings)
      else
        (fs, findings)

/-- Claim C7: whenever the content of `p` cannot be read, `scan_file`
returns an empty finding list (no exception escapes — in this model the
function is total) and the filesystem, in particular the file at `p`,
is unmodified. -/
theorem scan_file_read_failure (cfg : Config) (fs : FS) (p : String)
    (h : readFile fs p = none) :
    scan_file cfg fs p = (fs, []) := by
  simp [scan_file, h]

/-- Witness for C7: scanning a path missing from a concrete filesystem. -/
theorem scan_file_read_failure_witness :
    scan_file ⟨true, true, false⟩ [("a", [65])] "missing"
      = ([("a", [65])], []) :=
  scan_file_read_failure ⟨true, true, false⟩ [("a", [65])] "missing"
    (by decide)

/-- `ByteSleuth.scan_directory` (byte_sleuth.py lines 178-208): the
worker pool maps `scan_file` over the directory's files
(`executor.map(self.scan_file, files)`), each task starting from the
directory's pre-scan state (tasks touch distinct paths), and the loop
`for file_path, findings in zip(files, scan_results)` keeps a pair only
`if findings` is non-empty. Only the returned mapping is modelled; the
per-file filesystem effects happen inside the workers. -/
def scan_directory (cfg : Config) (fs : FS) (paths : List String) :
    List (String × List ByteSleuth.Finding) :=
  let scan_results := paths.map (fun p => (scan_file cfg fs p).2)
  (paths.zip scan_results).filter (fun e => !e.2.isEmpty)

/-- Unfolding `scan_directory` one file at a time: the head path
contributes its entry exactly when its findings are non-empty. -/
theorem scan_directory_cons (cfg : Config) (fs : FS) (q : String)
    (rest : List String) :
    scan_directory cfg fs (q :: rest)
      = (if (scan_file cfg fs q).2.isEmpty then []
         else [(q, (scan_file cfg fs q).2)]) ++ scan_directory cfg fs rest := by
  simp only [scan_directory, List.map_cons, List.zip_cons_cons,
    List.filter_cons]
  by_cases hq : (scan_file cfg fs q).2.isEmpty <;> simp [hq]

/-- Claim C9: a path is a key of the mapping returned by
`scan_directory` exactly when it is one of the scanned files and its
scan produced at least one finding; files with zero findings never
appear. -/
theorem scan_directory_keys (cfg : Config) (fs : FS)
    (paths : List String) (p : String) :
    p ∈ (scan_directory cfg fs paths).map Prod.fst ↔
      p ∈ paths ∧ (scan_file cfg fs p).2 ≠ [] := by
  induction paths with
  | nil => simp [scan_directory]
  | cons q rest ih =>
    rw [scan_directory_cons]
    by_cases hq : (scan_file cfg fs q).2.isEmpty
    · have hq' : (scan_file cfg fs q).2 = [] := List.isEmpty_iff.mp hq
      rw [if_pos hq, List.nil_append, ih]
      constructor
      · exact fun hh => ⟨List.mem_cons_of_mem q hh.1, hh.2⟩
      · rintro ⟨hmem, hne⟩
        rcases List.mem_cons.mp hmem with hpq | hmem2
        · exact absurd (hpq ▸ hq') hne
        · exact ⟨hmem2, hne⟩
    · have hq' : (scan_file cfg fs q).2 ≠ [] :=
        fun hnil => hq (by simp [hnil])
      rw [if_neg hq, List.singleton_append, List.map_cons, List.mem_cons,
        ih]
      constructor
      · rintro (hpq | hh)
        · exact ⟨List.mem_cons.mpr (Or.inl hpq), hpq ▸ hq'⟩
        · exact ⟨List.mem_cons_of_mem q hh.1, hh.2⟩
      · rintro ⟨hmem, hne⟩
        rcases List.mem_cons.mp hmem with hpq | hmem2
        · exact Or.inl hpq
        · exact Or.inr ⟨hmem2, hne⟩

/-- The two appending branches of the `detect_suspicious_chars` loop
(ASCII control, then `elif` Unicode-suspicious) produce a finding
exactly when the single `sanitize_text` condition `isSuspicious`
holds. -/
theorem ByteSleuth.detectAux_cons (k c : Nat) (rest : List Nat) :
    ByteSleuth.detectAux k (c :: rest)
      = if ByteSleuth.isSuspicious c then
          ⟨c, k⟩ :: ByteSleuth.detectAux (k + 1) rest
        else
          ByteSleuth.detectAux (k + 1) rest := by
  rcases h1 : decide (c < 32) with _ | _ <;>
    rcases h2 : c == 127 with _ | _ <;>
    rcases h3 : ByteSleuth.UNICODE_SUSPICIOUS_CODEPOINTS.contains c
        with _ | _ <;>
    simp [ByteSleuth.detectAux, ByteSleuth.isSuspicious, h1, h2, h3]

/-- Every finding produced with starting index `k` has position at
least `k`. -/
theorem ByteSleuth.detectAux_pos_ge (cs : List Nat) :
    ∀ k, ∀ f ∈ ByteSleuth.detectAux k cs, k ≤ f.position := by
  induction cs with
  | nil => intro k f hf; simp [ByteSleuth.detectAux] at hf
  | cons c rest ih =>
    intro k f hf
    rw [ByteSleuth.detectAux_cons] at hf
    by_cases hs : ByteSleuth.isSuspicious c
    · rw [if_pos hs] at hf
      rcases List.mem_cons.mp hf with rfl | hf2
      · exact Nat.le_refl k
      · exact Nat.le_of_succ_le (ih (k + 1) f hf2)
    · rw [if_neg hs] at hf
      exact Nat.le_of_succ_le (ih (k + 1) f hf)

/-- Every finding's codepoint is the character of the scanned text at
the finding's position (relative to the starting index `k`), and it is
suspicious. -/
theorem ByteSleuth.detectAux_getElem (cs : List Nat) :
    ∀ k, ∀ f ∈ ByteSleuth.detectAux k cs,
      cs[f.position - k]? = some f.codepoint ∧
        ByteSleuth.isSuspicious f.codepoint = true := by
  induction cs with
  | nil => intro k f hf; simp [ByteSleuth.detectAux] at hf
  | cons c rest ih =>
    intro k f hf
    rw [ByteSleuth.detectAux_cons] at hf
    by_cases hs : ByteSleuth.isSuspicious c
    · rw [if_pos hs] at hf
      rcases List.mem_cons.mp hf with rfl | hf2
      · simp [hs]
      · have hge := ByteSleuth.detectAux_pos_ge rest (k + 1) f hf2
        have hidx : f.position - k = (f.position - (k + 1)) + 1 := by
          omega
        rw [hidx, List.getElem?_cons_succ]
        exact ih (k + 1) f hf2
    · rw [if_neg hs] at hf
      have hge := ByteSleuth.detectAux_pos_ge rest (k + 1) f hf
      have hidx : f.position - k = (f.position - (k + 1)) + 1 := by
        omega
      rw [hidx, List.getElem?_cons_succ]
      exact ih (k + 1) f hf

/-- The findings of the loop are listed with strictly increasing
positions. -/
theorem ByteSleuth.detectAux_pairwise (cs : List Nat) :
    ∀ k, List.Pairwise (fun a b => a.position < b.position)
      (ByteSleuth.detectAux k cs) := by
  induction cs with
  | nil => intro k; simp [ByteSleuth.detectAux]
  | cons c rest ih =>
    intro k
    rw [ByteSleuth.detectAux_cons]
    by_cases hs : ByteSleuth.isSuspicious c
    · rw [if_pos hs]
      refine List.pairwise_cons.mpr ⟨?_, ih (k + 1)⟩
      intro f hf
      exact Nat.lt_of_succ_le (ByteSleuth.detectAux_pos_ge rest (k + 1) f hf)
    · rw [if_neg hs]
      exact ih (k + 1)

/-- Claim C8 (amended, `ByteSleuth` engine): the finding list of
`detect_suspicious_chars` is ordered by strictly increasing position —
ASCII-control and Unicode findings interleaved in order of appearance —
and each finding's position is the zero-based index of its codepoint in
the decoded character sequence. -/
theorem detect_findings_in_text_order (text : List Nat) :
    List.Pairwise (fun a b => a.position < b.position)
      (ByteSleuth.detect_suspicious_chars text) ∧
    ∀ f ∈ ByteSleuth.detect_suspicious_chars text,
      text[f.position]? = some f.codepoint := by
  constructor
  · exact ByteSleuth.detectAux_pairwise text 0
  · intro f hf
    have h := (ByteSleuth.detectAux_getElem text 0 f hf).1
    simpa using h

/-- Claim C8 counterexample: on the text `"​\x00"` (zero-width
space at index 0, NUL at index 1) the `CharacterScanner.detect_all_chars`
scan lists the NUL finding *before* the zero-width-space finding: it
groups all ASCII-control findings ahead of all Unicode findings instead
of interleaving them in order of appearance (which would be the filter
of the text by suspiciousness), and its findings carry no offsets at
all. -/
theorem detect_all_chars_groups_by_class :
    CharacterScanner.detect_all_chars [0x200B, 0] = [0, 0x200B] ∧
    CharacterScanner.detect_all_chars [0x200B, 0]
      ≠ List.filter (fun c => CharacterScanner.isSuspiciousCS c)
          [0x200B, 0] := by
  refine ⟨by decide, by decide⟩

/-- `text` with the characters at the listed zero-based positions
deleted and nothing else changed: the claim's reading of "text with
exactly the characters at the reported offsets removed". -/
def removeAtPositions (text : List Nat) (positions : List Nat) : List Nat :=
  ((text.enum).filter (fun e => !(positions.contains e.1))).map Prod.snd

/-- Generalisation of C10 over the starting index: deleting from the
text (enumerated from `k`) exactly the positions reported by the detect
loop started at `k` yields the sanitizer's filter. -/
theorem removeAt_detectAux (cs : List Nat) : ∀ k,
    ((List.enumFrom k cs).filter
        (fun e => !(((ByteSleuth.detectAux k cs).map
          ByteSleuth.Finding.position).contains e.1))).map Prod.snd
      = cs.filter (fun c => !(ByteSleuth.isSuspicious c)) := by
  induction cs with
  | nil => intro k; simp [ByteSleuth.detectAux]
  | cons c rest ih =>
    intro k
    have htail : ∀ e ∈ List.enumFrom (k + 1) rest, e.1 ≠ k := by
      intro e he
      have := List.le_fst_of_mem_enumFrom he
      omega
    have hPk : ((ByteSleuth.detectAux (k + 1) rest).map
        ByteSleuth.Finding.position).contains k = false := by
      rw [Bool.eq_false_iff]
      intro hk
      obtain ⟨f, hf, hfk⟩ :=
        List.mem_map.mp (List.elem_iff.mp hk)
      have := ByteSleuth.detectAux_pos_ge rest (k + 1) f hf
      omega
    by_cases hs : ByteSleuth.isSuspicious c
    · simp only [List.enumFrom_cons, ByteSleuth.detectAux_cons, if_pos hs,
        List.map_cons, List.filter_cons]
      rw [if_neg (by simp [List.contains_cons]), if_neg (by simp [hs])]
      have hcongr : ∀ e ∈ List.enumFrom (k + 1) rest,
          (!(k :: (ByteSleuth.detectAux (k + 1) rest).map
              ByteSleuth.Finding.position).contains e.1)
            = (!((ByteSleuth.detectAux (k + 1) rest).map
              ByteSleuth.Finding.position).contains e.1) := by
        intro e he
        simp [List.contains_cons, htail e he]
      rw [List.filter_congr hcongr, ih (k + 1)]
    · simp only [List.enumFrom_cons, ByteSleuth.detectAux_cons, if_neg hs,
        List.filter_cons]
      have hcond : (!((ByteSleuth.detectAux (k + 1) rest).map
          ByteSleuth.Finding.position).contains k) = true := by
        rw [hPk]
        rfl
      rw [if_pos hcond,
        if_pos (show (!ByteSleuth.isSuspicious c) = true by simp [hs]),
        List.map_cons, ih (k + 1)]

/-- Claim C10: sanitization and detection agree on one classification:
`sanitize_text text` is `text` with exactly the characters at the
offsets reported by `detect_suspicious_chars text` deleted — a
character is removed if and only if it is reported as a finding. -/
theorem sanitize_removes_exactly_detected (text : List Nat) :
    ByteSleuth.sanitize_text text
      = removeAtPositions text
          ((ByteSleuth.detect_suspicious_chars text).map
            ByteSleuth.Finding.position) := by
  rw [ByteSleuth.sanitize_eq_filter, removeAtPositions,
    ByteSleuth.detect_suspicious_chars]
  exact (removeAt_detectAux text 0).symm
